import Mathlib

/-!
Verification of the EFundAnalysis KYC workflow core against its specification.

The development shallowly embeds the Python sources:
  * `src/core/util/json_util.py`   (`extract_json_from_response`)
  * `src/core/kyc/workflows/kyc_workflow.py` (the four workflow steps and the
    streaming helper `__stream_llm_response__`)
  * `src/core/kyc/models/customer.py` (the pydantic data model, with its
    field constraints modelled as smart constructors returning `Option`)
  * `src/core/llm/agent/kyc_agent.py` (intent detection, KYC routing,
    session memory and reset)

Strings are modelled as `List Char`.  JSON numbers are modelled as integers
(the repository's defaults and the claims under study never depend on
fractional values).  The Python `json.loads` collaborator is modelled by an
executable recursive-descent parser (`jsonLoads`); exceptions are modelled
by `Option`/`Except` result types.
-/

/-- Python `str.strip` whitespace test (ASCII range). -/
def pyIsSpace (c : Char) : Bool :=
  c = ' ' || c = '\t' || c = '\n' || c = '\r' || c = '\x0b' || c = '\x0c'

/-- Python `str.strip()`: drop whitespace from both ends. -/
def pyStrip (s : List Char) : List Char :=
  ((s.dropWhile pyIsSpace).reverse.dropWhile pyIsSpace).reverse

/-- Boolean list-prefix test (mirrors `l₁` being a prefix of `l₂`). -/
def isPre : List Char → List Char → Bool
  | [], _ => true
  | _ :: _, [] => false
  | a :: as, b :: bs => a == b && isPre as bs

/-- Index of the first occurrence of `pat` as a contiguous sublist
(Python `str.find` / leftmost `re.search` anchor). -/
def findSub (pat : List Char) : List Char → Option Nat
  | [] => if pat = [] then some 0 else none
  | c :: cs => if isPre pat (c :: cs) then some 0 else (findSub pat cs).map (· + 1)

/-- Inner content of the first markdown code fence, mirroring
`re.search(r"\x60\x60\x60(?:json)?\s*(.*?)\s*\x60\x60\x60", text, re.DOTALL)`
followed by `.strip()`: take the first fence marker, optionally consume a
literal `json` tag, and close at the next fence marker. -/
def fenceContent (s : List Char) : Option (List Char) :=
  match findSub ['`', '`', '`'] s with
  | none => none
  | some i =>
    let afterOpen := s.drop (i + 3)
    let body := if isPre ['j', 's', 'o', 'n'] afterOpen then afterOpen.drop 4 else afterOpen
    match findSub ['`', '`', '`'] body with
    | none => none
    | some k => some (pyStrip (body.take k))

/-- The brace-depth loop of `extract_json_from_response`: starting at the
first `'\x7b'`, count depth and stop just after the brace that returns the
count to zero.  Returns how many characters the balanced span covers. -/
def braceLoop : List Char → Int → Option Nat
  | [], _ => none
  | c :: rest, count =>
    if c = '{' then (braceLoop rest (count + 1)).map (· + 1)
    else if c = '}' then
      if count - 1 = 0 then some 1
      else (braceLoop rest (count - 1)).map (· + 1)
    else (braceLoop rest count).map (· + 1)

/-- The balanced-brace candidate of `extract_json_from_response`:
`response_text[start_idx:end_idx].strip()` when the scan closes. -/
def braceSpan (s : List Char) : Option (List Char) :=
  match findSub ['{'] s with
  | none => none
  | some i =>
    match braceLoop (s.drop i) 0 with
    | some n => some (pyStrip ((s.drop i).take n))
    | none => none

/-- JSON values as returned by the `json.loads` collaborator
(numbers restricted to integers). -/
inductive JsonVal where
  | null
  | bool (b : Bool)
  | num (n : Int)
  | str (s : List Char)
  | arr (elems : List JsonVal)
  | obj (members : List (List Char × JsonVal))
deriving BEq

/-- JSON inter-token whitespace. -/
def isJsonWs (c : Char) : Bool :=
  c = ' ' || c = '\t' || c = '\n' || c = '\r'

/-- Skip JSON whitespace. -/
def skipWs (s : List Char) : List Char := s.dropWhile isJsonWs

/-- Decode one JSON string escape (the `\u` form is not modelled; inputs
using it are outside the fragment exercised here). -/
def escCharJson (c : Char) : Option Char :=
  if c = '"' then some '"'
  else if c = '\\' then some '\\'
  else if c = '/' then some '/'
  else if c = 'n' then some '\n'
  else if c = 't' then some '\t'
  else if c = 'r' then some '\r'
  else if c = 'b' then some '\x08'
  else if c = 'f' then some '\x0c'
  else none

/-- Parse the body of a JSON string after the opening quote; returns the
decoded characters and the remainder after the closing quote. -/
def parseStringBody : List Char → Option (List Char × List Char)
  | [] => none
  | c :: rest =>
    if c = '"' then some ([], rest)
    else if c = '\\' then
      match rest with
      | [] => none
      | e :: rest2 =>
        match escCharJson e with
        | none => none
        | some d =>
          match parseStringBody rest2 with
          | none => none
          | some (body, r) => some (d :: body, r)
    else if c.toNat < 32 then none
    else
      match parseStringBody rest with
      | none => none
      | some (body, r) => some (c :: body, r)

/-- Numeric value of a digit string. -/
def digitsToNat (ds : List Char) : Nat :=
  ds.foldl (fun a c => 10 * a + (c.toNat - 48)) 0

/-- Parse a JSON natural-number literal (no leading zeros). -/
def parseNatNum (s : List Char) : Option (Nat × List Char) :=
  let ds := s.takeWhile Char.isDigit
  if ds = [] then none
  else if ds.length > 1 && ds.headD ' ' = '0' then none
  else some (digitsToNat ds, s.dropWhile Char.isDigit)

/-- Parse a JSON integer literal, with optional minus sign. -/
def parseNum (s : List Char) : Option (JsonVal × List Char) :=
  if s.headD ' ' = '-' then
    match parseNatNum s.tail with
    | some (n, r) => some (.num (-(n : Int)), r)
    | none => none
  else
    match parseNatNum s with
    | some (n, r) => some (.num (n : Int), r)
    | none => none

mutual

/-- Recursive-descent JSON value parser (model of `json.loads`).  The fuel
argument bounds nesting and the element loops; `jsonLoads` supplies more
fuel than any input can consume. -/
def parseVal : Nat → List Char → Option (JsonVal × List Char)
  | 0, _ => none
  | fuel + 1, s0 =>
    let s := skipWs s0
    if isPre ['n', 'u', 'l', 'l'] s then some (.null, s.drop 4)
    else if isPre ['t', 'r', 'u', 'e'] s then some (.bool true, s.drop 4)
    else if isPre ['f', 'a', 'l', 's', 'e'] s then some (.bool false, s.drop 5)
    else
      match s with
      | [] => none
      | c :: rest =>
        if c = '"' then
          match parseStringBody rest with
          | some (b, r) => some (.str b, r)
          | none => none
        else if c = '[' then
          match skipWs rest with
          | ']' :: r2 => some (.arr [], r2)
          | _ => parseElems fuel rest []
        else if c = '{' then
          match skipWs rest with
          | '}' :: r2 => some (.obj [], r2)
          | _ => parseMembers fuel rest []
        else parseNum (c :: rest)

/-- Array-element loop of the JSON parser. -/
def parseElems : Nat → List Char → List JsonVal → Option (JsonVal × List Char)
  | 0, _, _ => none
  | fuel + 1, s, acc =>
    match parseVal fuel s with
    | none => none
    | some (v, r) =>
      match skipWs r with
      | ',' :: r2 => parseElems fuel r2 (acc ++ [v])
      | ']' :: r2 => some (.arr (acc ++ [v]), r2)
      | _ => none

/-- Object-member loop of the JSON parser. -/
def parseMembers : Nat → List Char → List (List Char × JsonVal) → Option (JsonVal × List Char)
  | 0, _, _ => none
  | fuel + 1, s, acc =>
    match skipWs s with
    | '"' :: r1 =>
      match parseStringBody r1 with
      | none => none
      | some (key, r2) =>
        match skipWs r2 with
        | ':' :: r3 =>
          match parseVal fuel r3 with
          | none => none
          | some (v, r4) =>
            match skipWs r4 with
            | ',' :: r5 => parseMembers fuel r5 (acc ++ [(key, v)])
            | '}' :: r5 => some (.obj (acc ++ [(key, v)]), r5)
            | _ => none
        | _ => none
    | _ => none

end

/-- Model of `json.loads`: parse one value and require only whitespace
after it. -/
def jsonLoads (s : List Char) : Option JsonVal :=
  match parseVal (s.length + 1) s with
  | some (v, rest) => if skipWs rest = [] then some v else none
  | none => none

/-- Model of `extract_json_from_response` from `src/core/util/json_util.py`:
try a fenced code block, else a balanced-brace span, else (also when the
chosen candidate is empty, since `if not json_str` treats `""` like
`None`) the whole stripped text; finally parse, raising
`json.JSONDecodeError` (modelled as `.error`) exactly when that parse
fails. -/
def extract_json_from_response (s : List Char) : Except (List Char) JsonVal :=
  let fromBlocks : Option (List Char) :=
    match fenceContent s with
    | some c => some c
    | none => braceSpan s
  let json_str : List Char :=
    match fromBlocks with
    | some c => if c = [] then pyStrip s else c
    | none => pyStrip s
  match jsonLoads (pyStrip json_str) with
  | some v => .ok v
  | none => .error ("Invalid JSON format".data)


/-- Candidate substring selected by the chain exactly as claim C3 states it:
fence inner content when a fence is present, else the balanced-brace span,
else the whole trimmed input. -/
def specChainCandidate (s : List Char) : List Char :=
  match fenceContent s with
  | some c => c
  | none =>
    match braceSpan s with
    | some c => c
    | none => pyStrip s

/-- The parse step that claim C3 attaches to its candidate chain. -/
def specExtractAsClaimed (s : List Char) : Except (List Char) JsonVal :=
  match jsonLoads (pyStrip (specChainCandidate s)) with
  | some v => .ok v
  | none => .error ("Invalid JSON format".data)

/-- Candidate chain amended by the empty-extraction rule the code actually
implements: an empty fence extraction (and likewise an empty brace span)
falls back to the whole trimmed input. -/
def specChainCandidateAmended (s : List Char) : List Char :=
  match fenceContent s with
  | some c => if c = [] then pyStrip s else c
  | none =>
    match braceSpan s with
    | some c => if c = [] then pyStrip s else c
    | none => pyStrip s

/-- JSON-serializable primitives, the value type of the dicts in the
parser round-trip claim. -/
inductive JsonPrim where
  | pnull
  | pbool (b : Bool)
  | pint (n : Int)
  | pstr (s : List Char)
deriving BEq

/-- The `JsonVal` a primitive decodes to. -/
def JsonPrim.toVal : JsonPrim → JsonVal
  | .pnull => .null
  | .pbool b => .bool b
  | .pint n => .num n
  | .pstr s => .str s

/-- Decimal digit character. -/
def digitChar : Nat → Char
  | 0 => '0' | 1 => '1' | 2 => '2' | 3 => '3' | 4 => '4'
  | 5 => '5' | 6 => '6' | 7 => '7' | 8 => '8' | _ => '9'

/-- Decimal digits, fueled so the definition reduces by `rfl`. -/
def natDigitsAux : Nat → Nat → List Char
  | 0, _ => []
  | fuel + 1, n =>
    if n < 10 then [digitChar n]
    else natDigitsAux fuel (n / 10) ++ [digitChar (n % 10)]

/-- Decimal digits of a natural number, most significant first. -/
def natDigits (n : Nat) : List Char := natDigitsAux (n + 1) n

/-- JSON string escaping as `json.dumps` performs it on the fragment in
scope (quote, backslash and the common control characters). -/
def escapeChar (c : Char) : List Char :=
  if c = '"' then ['\\', '"']
  else if c = '\\' then ['\\', '\\']
  else if c = '\n' then ['\\', 'n']
  else if c = '\t' then ['\\', 't']
  else if c = '\r' then ['\\', 'r']
  else [c]

/-- Escape a whole string body. -/
def escapeStr (s : List Char) : List Char := (s.map escapeChar).flatten

/-- Encode a JSON string literal. -/
def encodeStr (s : List Char) : List Char := '"' :: (escapeStr s ++ ['"'])

/-- Encode a JSON integer literal. -/
def encodeInt (n : Int) : List Char :=
  if n < 0 then '-' :: natDigits n.natAbs else natDigits n.natAbs

/-- Encode one primitive. -/
def encodePrim : JsonPrim → List Char
  | .pnull => "null".data
  | .pbool true => "true".data
  | .pbool false => "false".data
  | .pint n => encodeInt n
  | .pstr s => encodeStr s

/-- Encode one `key: value` member (`json.dumps` default separators). -/
def encodeMember (m : List Char × JsonPrim) : List Char :=
  encodeStr m.1 ++ ':' :: ' ' :: encodePrim m.2

/-- Encode the comma-separated member list. -/
def encodeMembers : List (List Char × JsonPrim) → List Char
  | [] => []
  | [m] => encodeMember m
  | m :: ms => encodeMember m ++ ',' :: ' ' :: encodeMembers ms

/-- JSON encoding of a flat dict of primitives. -/
def encodeFlatObj (ms : List (List Char × JsonPrim)) : List Char :=
  '{' :: (encodeMembers ms ++ ['}'])

/-- The `JsonVal` such a dict parses back to. -/
def flatObjVal (ms : List (List Char × JsonPrim)) : JsonVal :=
  .obj (ms.map fun m => (m.1, m.2.toVal))

/-- The `fence(s)` wrapper from the round-trip claim. -/
def fenceWrap (s : List Char) : List Char :=
  "```json\n".data ++ s ++ "\n```".data

/-- Characters that keep the encoding of a dict inside the fragment on
which the extraction heuristics are exact: printable (or escapable) and
free of backticks and braces. -/
def jsonSafeChar (c : Char) : Bool :=
  (32 ≤ c.toNat || c = '\n' || c = '\t' || c = '\r')
    && c ≠ '`' && c ≠ '{' && c ≠ '}'

/-- All characters of a string are safe. -/
def jsonSafeStr (s : List Char) : Bool := s.all jsonSafeChar

/-- All keys and string values of a flat dict are safe. -/
def safeDict (ms : List (List Char × JsonPrim)) : Bool :=
  ms.all fun m =>
    jsonSafeStr m.1 &&
      (match m.2 with
       | .pstr s => jsonSafeStr s
       | _ => true)

/-- Whether a primitive's string content is inside the safe fragment. -/
def primSafe : JsonPrim → Bool
  | .pstr s => jsonSafeStr s
  | _ => true


/-- The `MaritalStatus` enum from `customer.py`. -/
inductive MaritalStatus where
  | single | married | divorced | widowed | other
deriving DecidableEq

/-- Lookup `MaritalStatus(value)`; raising on an unknown value is `none`. -/
def MaritalStatus.ofString (s : List Char) : Option MaritalStatus :=
  if s = "single".data then some .single
  else if s = "married".data then some .married
  else if s = "divorced".data then some .divorced
  else if s = "widowed".data then some .widowed
  else if s = "other".data then some .other
  else none

/-- The `EmploymentStatus` enum from `customer.py`. -/
inductive EmploymentStatus where
  | employed | self_employed | unemployed | retired | student | other
deriving DecidableEq

/-- Lookup `EmploymentStatus(value)`. -/
def EmploymentStatus.ofString (s : List Char) : Option EmploymentStatus :=
  if s = "employed".data then some .employed
  else if s = "self_employed".data then some .self_employed
  else if s = "unemployed".data then some .unemployed
  else if s = "retired".data then some .retired
  else if s = "student".data then some .student
  else if s = "other".data then some .other
  else none

/-- The `RiskTolerance` enum from `customer.py`. -/
inductive RiskTolerance where
  | conservative | moderate | balanced | aggressive
deriving DecidableEq

/-- Lookup `RiskTolerance(value)`. -/
def RiskTolerance.ofString (s : List Char) : Option RiskTolerance :=
  if s = "conservative".data then some .conservative
  else if s = "moderate".data then some .moderate
  else if s = "balanced".data then some .balanced
  else if s = "aggressive".data then some .aggressive
  else none

/-- The `BasicInfo` model (numeric fields as integers). -/
structure BasicInfo where
  age : Int
  city : List Char
  marital_status : MaritalStatus
  employment_status : EmploymentStatus
  annual_income : Option Int
  education_level : Option (List Char)
  dependents : Int
deriving DecidableEq

/-- Pydantic validation of `BasicInfo` (age 18-100, non-empty city,
non-negative income and dependents); a failing constraint raises, modelled
as `none`. -/
def mkBasicInfo (age : Int) (city : List Char) (ms : MaritalStatus)
    (es : EmploymentStatus) (income : Option Int) (edu : Option (List Char))
    (dep : Int) : Option BasicInfo :=
  if decide (18 ≤ age) && decide (age ≤ 100) && !city.isEmpty
      && (match income with | some i => decide (0 ≤ i) | none => true)
      && decide (0 ≤ dep)
  then some ⟨age, city, ms, es, income, edu, dep⟩
  else none

/-- The `InvestmentPreference` model. -/
structure InvestmentPreference where
  investable_assets : Int
  max_loss_tolerance : Int
  investment_horizon_years : Int
  risk_tolerance : RiskTolerance
  investment_goals : List (List Char)
  preferred_investment_types : List (List Char)
  liquidity_needs : Option (List Char)
deriving DecidableEq

/-- Pydantic validation of `InvestmentPreference`. -/
def mkInvestmentPreference (assets loss horizon : Int) (rt : RiskTolerance)
    (goals prefs : List (List Char)) (liq : Option (List Char)) :
    Option InvestmentPreference :=
  if decide (0 ≤ assets) && decide (0 ≤ loss) && decide (loss ≤ 100)
      && decide (1 ≤ horizon)
  then some ⟨assets, loss, horizon, rt, goals, prefs, liq⟩
  else none

/-- The `RiskProfile` model. -/
structure RiskProfile where
  risk_score : Int
  risk_level : RiskTolerance
  risk_factors : List (List Char)
  suitability_notes : Option (List Char)
deriving DecidableEq

/-- Pydantic validation of `RiskProfile` (score 0-100). -/
def mkRiskProfile (score : Int) (level : RiskTolerance)
    (factors : List (List Char)) (notes : Option (List Char)) :
    Option RiskProfile :=
  if decide (0 ≤ score) && decide (score ≤ 100)
  then some ⟨score, level, factors, notes⟩
  else none

/-- The `CustomerProfile` model. -/
structure CustomerProfile where
  customer_id : Option (List Char)
  basic_info : BasicInfo
  investment_preference : InvestmentPreference
  risk_profile : Option RiskProfile
  additional_notes : Option (List Char)
  collected_at : Option (List Char)
deriving DecidableEq

/-- The `BasicInfoEvent` from `kyc_workflow.py`. -/
structure BasicInfoEvent where
  basic_info : BasicInfo
  customer_id : Option (List Char)
  user_input : List Char
deriving DecidableEq

/-- The `InvestmentPreferenceEvent` from `kyc_workflow.py`. -/
structure InvestmentPreferenceEvent where
  basic_info : BasicInfo
  investment_preference : InvestmentPreference
  customer_id : Option (List Char)
  user_input : List Char
deriving DecidableEq

/-- The `RiskAssessmentEvent` from `kyc_workflow.py` (lines 48-54): it carries
`basic_info`, `investment_preference`, `risk_profile` and `customer_id`,
and has no `user_input` field. -/
structure RiskAssessmentEvent where
  basic_info : BasicInfo
  investment_preference : InvestmentPreference
  risk_profile : RiskProfile
  customer_id : Option (List Char)
deriving DecidableEq

/-- The `StreamingChunkEvent` from `kyc_workflow.py`. -/
structure StreamingChunkEvent where
  chunk : List Char
  step_name : List Char
  is_complete : Bool
deriving DecidableEq

/-- Model of `token.delta if hasattr(token, "delta") and token.delta else ""`:
a missing or falsy delta contributes the empty chunk. -/
def streamChunkOf (tok : Option (List Char)) : List Char :=
  match tok with
  | some c => c
  | none => []

/-- One iteration of the `async for token in ...` loop of
`__stream_llm_response__`: state is `(emitted events, response_text)`. -/
def streamFoldStep (stepName : List Char)
    (st : List StreamingChunkEvent × List Char) (tok : Option (List Char)) :
    List StreamingChunkEvent × List Char :=
  let chunk := streamChunkOf tok
  if chunk = [] then st
  else (st.1 ++ [⟨chunk, stepName, false⟩], st.2 ++ chunk)

/-- Model of `__stream_llm_response__`: emit one event per non-empty fragment (in
order, `is_complete = false`), then always one final newline event with
`is_complete = true`; return the aggregated text, stripped. -/
def streamLlmResponse (tokens : List (Option (List Char))) (stepName : List Char) :
    List StreamingChunkEvent × List Char :=
  let st := tokens.foldl (streamFoldStep stepName) ([], [])
  (st.1 ++ [⟨['\n'], stepName, true⟩], pyStrip st.2)

/-- Python `dict.get` on the parsed JSON object (last duplicate wins, as
in `json.loads`). -/
def dictGet (fields : List (List Char × JsonVal)) (key : List Char) :
    Option JsonVal :=
  fields.foldl (fun acc kv => if kv.1 = key then some kv.2 else acc) none

/-- The parsed value must be a JSON object, else attribute access raises. -/
def asObj : JsonVal → Option (List (List Char × JsonVal))
  | .obj fs => some fs
  | _ => none

/-- Integer-typed field (a non-numeric value fails pydantic validation). -/
def asInt : JsonVal → Option Int
  | .num n => some n
  | _ => none

/-- String-typed field. -/
def asStr : JsonVal → Option (List Char)
  | .str s => some s
  | _ => none

/-- A `list[str]`-typed field. -/
def asStrList : JsonVal → Option (List (List Char))
  | .arr xs =>
    xs.foldr
      (fun x acc =>
        match x, acc with
        | .str s, some l => some (s :: l)
        | _, _ => none)
      (some [])
  | _ => none

/-- Optional field: absent and `null` both give `none`; a present value of
the wrong shape fails validation. -/
def optField (fields : List (List Char × JsonVal)) (key : List Char)
    (conv : JsonVal → Option α) : Option (Option α) :=
  match dictGet fields key with
  | none => some none
  | some .null => some none
  | some v => (conv v).map some

/-- The try-block of `collect_basic_info` after the LLM text is aggregated:
parse, read fields with their per-field defaults, construct `BasicInfo`.
Any raise (parse failure, enum failure, validation failure) is `none`. -/
def basicInfoBody (resp : List Char) : Option BasicInfo := do
  let data ← (extract_json_from_response resp).toOption
  let fs ← asObj data
  let age ← asInt ((dictGet fs "age".data).getD (.num 30))
  let city ← asStr ((dictGet fs "city".data).getD (.str "Unknown".data))
  let msRaw ← asStr ((dictGet fs "marital_status".data).getD (.str "single".data))
  let ms ← MaritalStatus.ofString msRaw
  let esRaw ← asStr ((dictGet fs "employment_status".data).getD (.str "employed".data))
  let es ← EmploymentStatus.ofString esRaw
  let income ← optField fs "annual_income".data asInt
  let edu ← optField fs "education_level".data asStr
  let dep ← asInt ((dictGet fs "dependents".data).getD (.num 0))
  mkBasicInfo age city ms es income edu dep

/-- Default `BasicInfo` built in the except-branch of step 1. -/
def defaultBasicInfo : BasicInfo :=
  ⟨30, "Unknown".data, .single, .employed, none, none, 0⟩

/-- Outcome of step 1's try-block, given the model-call outcome
(`.error` = the LLM call or prompt loading raised). -/
def basicInfoAttempt (model : Except (List Char) (List Char)) : Option BasicInfo :=
  match model with
  | .error _ => none
  | .ok resp => basicInfoBody resp

/-- Step 1 `collect_basic_info`: on any raise, fall back to the default
`BasicInfo`; `customer_id` and `user_input` are carried either way. -/
def collect_basic_info (user_input : List Char) (customer_id : Option (List Char))
    (model : Except (List Char) (List Char)) : BasicInfoEvent :=
  match basicInfoAttempt model with
  | some bi => ⟨bi, customer_id, user_input⟩
  | none => ⟨defaultBasicInfo, customer_id, user_input⟩

/-- The try-block of `collect_investment_preferences` after aggregation. -/
def investmentPreferenceBody (resp : List Char) : Option InvestmentPreference := do
  let data ← (extract_json_from_response resp).toOption
  let fs ← asObj data
  let assets ← asInt ((dictGet fs "investable_assets".data).getD (.num 100000))
  let loss ← asInt ((dictGet fs "max_loss_tolerance".data).getD (.num 10))
  let horizon ← asInt ((dictGet fs "investment_horizon_years".data).getD (.num 5))
  let rtRaw ← asStr ((dictGet fs "risk_tolerance".data).getD (.str "moderate".data))
  let rt ← RiskTolerance.ofString rtRaw
  let goals ← asStrList ((dictGet fs "investment_goals".data).getD (.arr []))
  let prefs ← asStrList ((dictGet fs "preferred_investment_types".data).getD (.arr []))
  let liq ← optField fs "liquidity_needs".data asStr
  mkInvestmentPreference assets loss horizon rt goals prefs liq

/-- Default `InvestmentPreference` built in the except-branch of step 2
(goals and preferred types get their pydantic `[]` defaults). -/
def defaultInvestmentPreference : InvestmentPreference :=
  ⟨100000, 10, 5, .moderate, [], [], none⟩

/-- Outcome of step 2's try-block. -/
def investmentPreferenceAttempt (model : Except (List Char) (List Char)) :
    Option InvestmentPreference :=
  match model with
  | .error _ => none
  | .ok resp => investmentPreferenceBody resp

/-- Step 2 `collect_investment_preferences`: `basic_info`, `customer_id`
and `user_input` are copied from the incoming event in both branches. -/
def collect_investment_preferences (ev : BasicInfoEvent)
    (model : Except (List Char) (List Char)) : InvestmentPreferenceEvent :=
  match investmentPreferenceAttempt model with
  | some ip => ⟨ev.basic_info, ip, ev.customer_id, ev.user_input⟩
  | none => ⟨ev.basic_info, defaultInvestmentPreference, ev.customer_id, ev.user_input⟩

/-- The try-block of `assess_risk_profile` after aggregation
(`float(...)` on the score is modelled on integers). -/
def riskProfileBody (resp : List Char) : Option RiskProfile := do
  let data ← (extract_json_from_response resp).toOption
  let fs ← asObj data
  let score ← asInt ((dictGet fs "risk_score".data).getD (.num 50))
  let rlRaw ← asStr ((dictGet fs "risk_level".data).getD (.str "moderate".data))
  let rl ← RiskTolerance.ofString rlRaw
  let factors ← asStrList ((dictGet fs "risk_factors".data).getD (.arr []))
  let notes ← optField fs "suitability_notes".data asStr
  mkRiskProfile score rl factors notes

/-- Default `RiskProfile` built in the except-branch of step 3.  The code's
strings are Chinese: `risk_factors=["信息不足"]`,
`suitability_notes="由于信息不足，建议进行进一步咨询。"`. -/
def defaultRiskProfile : RiskProfile :=
  ⟨50, .moderate, ["信息不足".data], some "由于信息不足，建议进行进一步咨询。".data⟩

/-- Outcome of step 3's try-block. -/
def riskProfileAttempt (model : Except (List Char) (List Char)) :
    Option RiskProfile :=
  match model with
  | .error _ => none
  | .ok resp => riskProfileBody resp

/-- Step 3 `assess_risk_profile`: both branches copy `basic_info`,
`investment_preference` and `customer_id` from the incoming event; the
output event type has no `user_input` field. -/
def assess_risk_profile (ev : InvestmentPreferenceEvent)
    (model : Except (List Char) (List Char)) : RiskAssessmentEvent :=
  match riskProfileAttempt model with
  | some rp => ⟨ev.basic_info, ev.investment_preference, rp, ev.customer_id⟩
  | none => ⟨ev.basic_info, ev.investment_preference, defaultRiskProfile, ev.customer_id⟩

/-- The terminal `StopEvent.result` dict of the workflow. -/
structure StopResult where
  status : List Char
  customer_profile : Option CustomerProfile
  recommendation : Option (List Char)
  error : Option (List Char)
  message : Option (List Char)
deriving DecidableEq

/-- Step 4 `generate_customer_profile`: on success, a `completed` result
embedding the full `CustomerProfile` and the recommendation text; on any
raise, an `error` result with the exception text and the fixed message
`"生成客户画像时发生错误"` — the run still completes. -/
def generate_customer_profile (ev : RiskAssessmentEvent)
    (model : Except (List Char) (List Char)) : StopResult :=
  match model with
  | .ok resp =>
    let customer_profile : CustomerProfile :=
      ⟨ev.customer_id, ev.basic_info, ev.investment_preference,
        some ev.risk_profile, none, none⟩
    ⟨"completed".data, some customer_profile, some resp, none, none⟩
  | .error e =>
    ⟨"error".data, none, none, some e, some "生成客户画像时发生错误".data⟩

/-- The accumulated `WorkflowState` view of the spec: which of the five
accumulated fields an event carries. -/
structure WorkflowState where
  user_input : Option (List Char)
  customer_id : Option (Option (List Char))
  basic_info : Option BasicInfo
  investment_preference : Option InvestmentPreference
  risk_profile : Option RiskProfile
deriving DecidableEq

/-- State carried by a `BasicInfoEvent`. -/
def BasicInfoEvent.state (ev : BasicInfoEvent) : WorkflowState :=
  ⟨some ev.user_input, some ev.customer_id, some ev.basic_info, none, none⟩

/-- State carried by an `InvestmentPreferenceEvent`. -/
def InvestmentPreferenceEvent.state (ev : InvestmentPreferenceEvent) : WorkflowState :=
  ⟨some ev.user_input, some ev.customer_id, some ev.basic_info,
    some ev.investment_preference, none⟩

/-- State carried by a `RiskAssessmentEvent` (no `user_input` field). -/
def RiskAssessmentEvent.state (ev : RiskAssessmentEvent) : WorkflowState :=
  ⟨none, some ev.customer_id, some ev.basic_info,
    some ev.investment_preference, some ev.risk_profile⟩

/-- State `new` keeps every field that `old` has set, unchanged. -/
def stateKeeps (new old : WorkflowState) : Bool :=
  (match old.user_input with
   | none => true
   | some x => new.user_input == some x) &&
  (match old.customer_id with
   | none => true
   | some x => new.customer_id == some x) &&
  (match old.basic_info with
   | none => true
   | some x => new.basic_info == some x) &&
  (match old.investment_preference with
   | none => true
   | some x => new.investment_preference == some x) &&
  (match old.risk_profile with
   | none => true
   | some x => new.risk_profile == some x)

/-- Role tags of the shared chat memory. -/
inductive MessageRole where
  | user | assistant
deriving DecidableEq

/-- One turn in the shared chat memory. -/
structure ChatMessage where
  role : MessageRole
  content : List Char
deriving DecidableEq

/-- Events observed by `_stream_kyc_workflow_async` on the handler's
event stream. -/
inductive KycStreamEvent where
  | chunkEvent (ev : StreamingChunkEvent)
  | stopEvent (result : StopResult)
deriving DecidableEq

/-- One iteration of the `async for event in handler.stream_events()` loop:
state is `(full_response_parts, fallback_result)`.  A non-empty chunk is
collected (and yielded); a `StopEvent` is consulted for its recommendation
only while no chunks have been collected. -/
def consumeKycEvent (st : List (List Char) × List Char) (e : KycStreamEvent) :
    List (List Char) × List Char :=
  match e with
  | .chunkEvent ev => if ev.chunk = [] then st else (st.1 ++ [ev.chunk], st.2)
  | .stopEvent r =>
    if st.1 = [] then
      let recText := r.recommendation.getD []
      if recText = [] then st else (st.1, recText)
    else st

/-- Model of `_stream_kyc_workflow_async` without the surrounding engine plumbing:
given the event stream, the chunks yielded to the caller and the assistant
message appended to memory (if any).  After the loop, a fallback
recommendation is yielded only when no chunks arrived; the full response
(the joined parts, else the fallback) is saved only when non-empty. -/
def streamKycWorkflowAsync (events : List KycStreamEvent) :
    List (List Char) × Option (List Char) :=
  let st := events.foldl consumeKycEvent ([], [])
  let parts := if st.1.isEmpty && !st.2.isEmpty then st.1 ++ [st.2] else st.1
  let full := if parts.isEmpty then st.2 else parts.flatten
  (parts, if full.isEmpty then none else some full)

/-- The KYC branch of `KYCAgent.stream_chat`: the raw user message is
appended to memory before the workflow runs; the workflow's saved response
(if any) is appended after it.  Returns the new memory and the yielded
chunks. -/
def stream_chat_kyc (memory : List ChatMessage) (message : List Char)
    (events : List KycStreamEvent) : List ChatMessage × List (List Char) :=
  let memory1 := memory ++ [⟨.user, message⟩]
  let res := streamKycWorkflowAsync events
  (memory1 ++
      (match res.2 with
       | some a => [⟨.assistant, a⟩]
       | none => []),
    res.1)

/-- Session state of a `KYCAgent`: the chat memory, the lazily created
workflow engine (identified by a creation counter so that distinct
creations are distinguishable), and the next fresh engine id. -/
structure KYCAgentState where
  memory : List ChatMessage
  kyc_workflow : Option Nat
  next_workflow_id : Nat
deriving DecidableEq

/-- Model of `KYCAgent.reset`: clear the chat memory and discard the engine. -/
def KYCAgentState.reset (s : KYCAgentState) : KYCAgentState :=
  ⟨[], none, s.next_workflow_id⟩

/-- Model of `KYCAgent.get_chat_history`. -/
def KYCAgentState.get_chat_history (s : KYCAgentState) : List ChatMessage :=
  s.memory

/-- The `if self.kyc_workflow is None: self.kyc_workflow = KYCWorkflow(...)`
prelude of `_stream_kyc_workflow_async`: returns the engine used for this
message and the updated session state. -/
def ensureKycWorkflow (s : KYCAgentState) : Nat × KYCAgentState :=
  match s.kyc_workflow with
  | some w => (w, s)
  | none =>
    (s.next_workflow_id,
      ⟨s.memory, some s.next_workflow_id, s.next_workflow_id + 1⟩)

/-- Lower-case a string (Python `str.lower` on the ASCII range). -/
def pyLower (s : List Char) : List Char := s.map Char.toLower

/-- Python `in` on strings. -/
def containsSub (pat s : List Char) : Bool := (findSub pat s).isSome

/-- Model of `KYCAgent._detect_intent`: empty or whitespace-only input short-circuits
to `"normal_chat"` with no model call; otherwise one completion call is
issued and the lowered, stripped response routes to `"kyc_workflow"` iff it
contains `"kyc"` or `"workflow"`; a raising call defaults to
`"normal_chat"`.  Returns the intent and the number of model calls. -/
def detect_intent (user_input : List Char)
    (llm : Except (List Char) (List Char)) : List Char × Nat :=
  if user_input = [] || (pyStrip user_input).isEmpty then ("normal_chat".data, 0)
  else
    match llm with
    | .ok resp =>
      let intent := pyLower (pyStrip resp)
      if containsSub "kyc".data intent || containsSub "workflow".data intent
      then ("kyc_workflow".data, 1)
      else ("normal_chat".data, 1)
    | .error _ => ("normal_chat".data, 1)


/-! ## Concrete evaluations exercising the models -/

example : jsonLoads ("3".data) = some (.num 3) := by rfl

example : jsonLoads ("-14".data) = some (.num (-14)) := by rfl

example : jsonLoads (" [1, 2] ".data) = some (.arr [.num 1, .num 2]) := by rfl

example : jsonLoads ("null".data) = some .null := by rfl

example : jsonLoads ("not json at all".data) = none := by rfl

example :
    jsonLoads ("\x7b\"a\": 1\x7d".data) = some (.obj [(['a'], .num 1)]) := by rfl

example :
    extract_json_from_response ("some text \x7b\"a\":1\x7d trailing".data) =
      .ok (.obj [(['a'], .num 1)]) := by rfl

example :
    extract_json_from_response ("not json at all".data) = .error ("Invalid JSON format".data) := by
  rfl

example :
    extract_json_from_response ("```json\n\x7b\"k\": true\x7d\n```".data) =
      .ok (.obj [(['k'], .bool true)]) := by rfl

example :
    extract_json_from_response
        (fenceWrap (encodeFlatObj [(['a'], .pint 1), (['b'], .pstr ['x'])])) =
      .ok (flatObjVal [(['a'], .pint 1), (['b'], .pstr ['x'])]) := by rfl

example :
    extract_json_from_response (encodeFlatObj [(['a'], .pint (-2)), (['b'], .pbool true)]) =
      .ok (flatObjVal [(['a'], .pint (-2)), (['b'], .pbool true)]) := by rfl

example : extract_json_from_response (encodeFlatObj []) = .ok (flatObjVal []) := by rfl

example :
    extract_json_from_response (encodeFlatObj [(['a'], .pstr ['}'])]) =
      .error ("Invalid JSON format".data) := by rfl

example :
    extract_json_from_response (encodeFlatObj [(['a'], .pstr "``` ```".data)]) =
      .ok (flatObjVal [(['a'], .pstr "``` ```".data)]) := by rfl

example :
    jsonLoads (pyStrip (specChainCandidate (encodeFlatObj [(['a'], .pstr "``` ```".data)]))) =
      none := by rfl

example : fenceContent ("``` ```".data) = some [] := by rfl

example :
    extract_json_from_response ("``` ```".data) = .error ("Invalid JSON format".data) := by rfl

example : (detect_intent "   ".data (.ok "kyc".data)) = ("normal_chat".data, 0) := by rfl

example : (detect_intent "帮我做资产配置".data (.ok " KYC_workflow ".data)) =
    ("kyc_workflow".data, 1) := by rfl

example : (detect_intent "hello".data (.error "boom".data)) = ("normal_chat".data, 1) := by rfl

/-! ## Helper lemmas -/

theorem streamFold_events (tokens : List (Option (List Char))) (stepName : List Char)
    (acc : List StreamingChunkEvent × List Char) :
    (tokens.foldl (streamFoldStep stepName) acc).1 =
      acc.1 ++ ((tokens.map streamChunkOf).filter (fun c => !c.isEmpty)).map
          (fun c => ⟨c, stepName, false⟩) := by
  induction tokens generalizing acc with
  | nil => simp
  | cons tok rest ih =>
    simp only [List.foldl_cons, List.map_cons, List.filter_cons]
    rw [ih]
    by_cases h : streamChunkOf tok = []
    · simp [streamFoldStep, h]
    · have hne : (streamChunkOf tok).isEmpty = false := by
        simpa [List.isEmpty_iff] using h
      simp [streamFoldStep, h, hne]

/-! ## Claim theorems -/

/-- C5 (confirmed).  Step completion signal: for every fragment sequence
(including the empty one), the events emitted by `__stream_llm_response__`
are exactly the non-empty content fragments in order, each with
`is_complete = false`, followed by exactly one final event with
`is_complete = true` and `chunk = "\n"` — emitted even when no content
fragment was produced. -/
theorem stream_llm_response_event_shape
    (tokens : List (Option (List Char))) (stepName : List Char) :
    (streamLlmResponse tokens stepName).1 =
      ((tokens.map streamChunkOf).filter (fun c => !c.isEmpty)).map
          (fun c => ⟨c, stepName, false⟩)
        ++ [⟨['\n'], stepName, true⟩] := by
  simp only [streamLlmResponse]
  rw [streamFold_events]
  simp

/-- C6 (confirmed).  If the final step `generate_customer_profile` raises,
the workflow still completes with a terminal result of status `"error"`
carrying the error message; steps 1-3, by contrast, absorb a raise into
their default-valued events rather than an error result. -/
theorem generate_customer_profile_error_result
    (ev : RiskAssessmentEvent) (ev2 : BasicInfoEvent)
    (ev3 : InvestmentPreferenceEvent) (e : List Char)
    (u : List Char) (c : Option (List Char)) :
    generate_customer_profile ev (.error e) =
        ⟨"error".data, none, none, some e, some "生成客户画像时发生错误".data⟩ ∧
      collect_basic_info u c (.error e) = ⟨defaultBasicInfo, c, u⟩ ∧
      collect_investment_preferences ev2 (.error e) =
        ⟨ev2.basic_info, defaultInvestmentPreference, ev2.customer_id, ev2.user_input⟩ ∧
      assess_risk_profile ev3 (.error e) =
        ⟨ev3.basic_info, ev3.investment_preference, defaultRiskProfile, ev3.customer_id⟩ :=
  ⟨rfl, rfl, rfl, rfl⟩

/-- C9 (confirmed).  Intent classification of an empty or whitespace-only
message returns `"normal_chat"` and issues no model call at all. -/
theorem detect_intent_whitespace_no_call (s : List Char)
    (llm : Except (List Char) (List Char)) (h : pyStrip s = []) :
    detect_intent s llm = ("normal_chat".data, 0) := by
  unfold detect_intent
  rw [h]
  simp

/-- Witness for C9 at the whitespace-only input `"   "`. -/
theorem detect_intent_whitespace_no_call_witness :
    pyStrip "   ".data = [] ∧
      detect_intent "   ".data (.ok "kyc".data) = ("normal_chat".data, 0) :=
  ⟨rfl, detect_intent_whitespace_no_call "   ".data (.ok "kyc".data) rfl⟩

/-- C8 (confirmed).  After `reset()` the chat history is empty and the
engine slot is cleared, so the next KYC-routed message creates a fresh
engine (a new creation id, distinct from any engine created before the
reset) instead of reusing prior state. -/
theorem reset_clears_session (s : KYCAgentState) (w : Nat)
    (hused : s.kyc_workflow = some w) (hfresh : w < s.next_workflow_id) :
    s.reset.get_chat_history = [] ∧
      s.reset.kyc_workflow = none ∧
      (ensureKycWorkflow s.reset).1 = s.next_workflow_id ∧
      (ensureKycWorkflow s.reset).1 ≠ w ∧
      (ensureKycWorkflow s.reset).2.kyc_workflow = some s.next_workflow_id ∧
      (ensureKycWorkflow s.reset).2.next_workflow_id = s.next_workflow_id + 1 := by
  refine ⟨rfl, rfl, rfl, ?_, rfl, rfl⟩
  have h : (ensureKycWorkflow s.reset).1 = s.next_workflow_id := rfl
  rw [h]
  omega

/-- Witness for C8 on a session that used engine 0 and has one message. -/
theorem reset_clears_session_witness :
    (⟨[⟨.user, "hi".data⟩], some 0, 1⟩ : KYCAgentState).kyc_workflow = some 0 ∧
      0 < (⟨[⟨.user, "hi".data⟩], some 0, 1⟩ : KYCAgentState).next_workflow_id ∧
      ((⟨[⟨.user, "hi".data⟩], some 0, 1⟩ : KYCAgentState).reset.get_chat_history = [] ∧
        (⟨[⟨.user, "hi".data⟩], some 0, 1⟩ : KYCAgentState).reset.kyc_workflow = none ∧
        (ensureKycWorkflow (⟨[⟨.user, "hi".data⟩], some 0, 1⟩ : KYCAgentState).reset).1 = 1 ∧
        (ensureKycWorkflow (⟨[⟨.user, "hi".data⟩], some 0, 1⟩ : KYCAgentState).reset).1 ≠ 0 ∧
        (ensureKycWorkflow
            (⟨[⟨.user, "hi".data⟩], some 0, 1⟩ : KYCAgentState).reset).2.kyc_workflow = some 1 ∧
        (ensureKycWorkflow
            (⟨[⟨.user, "hi".data⟩], some 0, 1⟩ : KYCAgentState).reset).2.next_workflow_id = 2) :=
  ⟨rfl, by decide, reset_clears_session _ 0 rfl (by decide)⟩

theorem pyStrip_as_rdrop (s : List Char) :
    pyStrip s = List.rdropWhile pyIsSpace (s.dropWhile pyIsSpace) := rfl

theorem dropWhile_pyStrip (s : List Char) :
    List.dropWhile pyIsSpace (pyStrip s) = pyStrip s := by
  rw [pyStrip_as_rdrop]
  rcases hp : List.rdropWhile pyIsSpace (s.dropWhile pyIsSpace) with _ | ⟨c, t⟩
  · rfl
  · obtain ⟨u, hu⟩ := List.rdropWhile_prefix pyIsSpace (s.dropWhile pyIsSpace)
    rw [hp] at hu
    have hd : List.dropWhile pyIsSpace s = c :: (t ++ u) := by
      rw [← hu]; simp
    have hq : (List.dropWhile pyIsSpace s).head? = some c := by rw [hd]; rfl
    have h0 := List.head?_dropWhile_not pyIsSpace s
    rw [hq] at h0
    rw [List.dropWhile_cons]
    simp [h0]

theorem pyStrip_idem (s : List Char) : pyStrip (pyStrip s) = pyStrip s := by
  rw [pyStrip_as_rdrop (pyStrip s), dropWhile_pyStrip, pyStrip_as_rdrop s,
    List.rdropWhile_idempotent]

/-- C10 (confirmed).  When the fenced block's inner content is empty, the
empty extraction is treated like no extraction at all: the parser falls
back to the entire trimmed input, and it raises a parse error exactly when
that whole text is not valid JSON. -/
theorem extract_empty_fence_falls_back_to_whole_text (s : List Char)
    (h : fenceContent s = some []) :
    extract_json_from_response s =
      match jsonLoads (pyStrip s) with
      | some v => .ok v
      | none => .error ("Invalid JSON format".data) := by
  simp [extract_json_from_response, h, pyStrip_idem]

/-- Witness for C10 at `"``` ```"`: the fence is present with empty inner
content, and the whole text is not valid JSON, so extraction raises. -/
theorem extract_empty_fence_falls_back_witness :
    fenceContent ("``` ```".data) = some [] ∧
      jsonLoads (pyStrip ("``` ```".data)) = none ∧
      extract_json_from_response ("``` ```".data) =
        match jsonLoads (pyStrip ("``` ```".data)) with
        | some v => .ok v
        | none => .error ("Invalid JSON format".data) :=
  ⟨rfl, rfl, extract_empty_fence_falls_back_to_whole_text ("``` ```".data) rfl⟩

/-- C3 counterexample.  On the input `{"a": "``` ```"}` (written via the
encoder) a fenced block is present, so the chain exactly as claimed selects
its (empty) inner content, whose parse fails — the claim then requires a
parse error.  The code instead returns the parsed whole text successfully. -/
theorem extract_chain_as_claimed_counterexample :
    fenceContent (encodeFlatObj [(['a'], .pstr "``` ```".data)]) = some [] ∧
      jsonLoads (pyStrip (specChainCandidate
          (encodeFlatObj [(['a'], .pstr "``` ```".data)]))) = none ∧
      extract_json_from_response (encodeFlatObj [(['a'], .pstr "``` ```".data)]) =
        .ok (.obj [(['a'], .str "``` ```".data)]) :=
  ⟨rfl, rfl, rfl⟩

/-- C3 (corrected).  The selection chain holds with one amendment: a fence
whose extracted content is empty (and likewise an empty brace span) falls
through to the entire trimmed input; the final parse of the selected
candidate decides between the parsed value and a distinct parse error
(never a silent empty dict). -/
theorem extract_follows_amended_chain (s : List Char) :
    extract_json_from_response s =
      match jsonLoads (pyStrip (specChainCandidateAmended s)) with
      | some v => .ok v
      | none => .error ("Invalid JSON format".data) := by
  cases hf : fenceContent s with
  | some c => simp [extract_json_from_response, specChainCandidateAmended, hf]
  | none =>
    cases hb : braceSpan s with
    | some c => simp [extract_json_from_response, specChainCandidateAmended, hf, hb]
    | none => simp [extract_json_from_response, specChainCandidateAmended, hf, hb]

/-- C1 counterexample.  Step 3 drops the accumulated `user_input`: its
output event's state no longer keeps every field of its input event's
state, against the claim that no later step drops `user_input`. -/
theorem risk_event_drops_user_input :
    stateKeeps
        (RiskAssessmentEvent.state
          (assess_risk_profile
            ⟨defaultBasicInfo, defaultInvestmentPreference, none, "hi".data⟩
            (.error "boom".data)))
        (InvestmentPreferenceEvent.state
          ⟨defaultBasicInfo, defaultInvestmentPreference, none, "hi".data⟩) = false ∧
      (InvestmentPreferenceEvent.state
          ⟨defaultBasicInfo, defaultInvestmentPreference, none, "hi".data⟩).user_input =
        some "hi".data ∧
      (RiskAssessmentEvent.state
          (assess_risk_profile
            ⟨defaultBasicInfo, defaultInvestmentPreference, none, "hi".data⟩
            (.error "boom".data))).user_input = none :=
  ⟨rfl, rfl, rfl⟩

/-- C1 (corrected).  The additive invariant holds for every field except
`user_input` at step 3: steps 2-4 never alter `BasicInfo`, steps 3-4 never
alter `InvestmentPreference`, `customer_id` is never dropped, `user_input`
is preserved by step 2, and the final step's success result embeds all
accumulated fields; but step 3's output event omits `user_input`. -/
theorem workflow_steps_keep_prior_fields
    (ev2 : BasicInfoEvent) (ev3 : InvestmentPreferenceEvent)
    (ev4 : RiskAssessmentEvent)
    (m2 m3 : Except (List Char) (List Char)) (resp : List Char) :
    ((collect_investment_preferences ev2 m2).basic_info = ev2.basic_info ∧
      (collect_investment_preferences ev2 m2).customer_id = ev2.customer_id ∧
      (collect_investment_preferences ev2 m2).user_input = ev2.user_input) ∧
    ((assess_risk_profile ev3 m3).basic_info = ev3.basic_info ∧
      (assess_risk_profile ev3 m3).investment_preference = ev3.investment_preference ∧
      (assess_risk_profile ev3 m3).customer_id = ev3.customer_id) ∧
    (generate_customer_profile ev4 (.ok resp)).customer_profile =
      some ⟨ev4.customer_id, ev4.basic_info, ev4.investment_preference,
        some ev4.risk_profile, none, none⟩ := by
  refine ⟨?_, ?_, rfl⟩
  · cases h : investmentPreferenceAttempt m2 <;>
      simp [collect_investment_preferences, h]
  · cases h : riskProfileAttempt m3 <;> simp [assess_risk_profile, h]

/-- C2 counterexample.  The step-3 defaults in the code carry the Chinese
strings `["信息不足"]` and `"由于信息不足，建议进行进一步咨询。"`, not the
English strings the claim asserts field-for-field. -/
theorem step3_default_strings_counterexample :
    (assess_risk_profile ⟨defaultBasicInfo, defaultInvestmentPreference, none, []⟩
        (.error "boom".data)).risk_profile.risk_factors = ["信息不足".data] ∧
      (assess_risk_profile ⟨defaultBasicInfo, defaultInvestmentPreference, none, []⟩
          (.error "boom".data)).risk_profile.risk_factors ≠
        ["insufficient information".data] ∧
      (assess_risk_profile ⟨defaultBasicInfo, defaultInvestmentPreference, none, []⟩
          (.error "boom".data)).risk_profile.suitability_notes ≠
        some "insufficient information; recommend further consultation".data :=
  ⟨rfl, by decide, by decide⟩

/-- C2 (corrected).  Whenever a step's body raises (LLM failure, total
parse failure, enum or range validation failure), steps 1-3 emit exactly
their coded default objects, field for field — with step 3's strings being
the code's Chinese ones. -/
theorem steps_default_substitution
    (u : List Char) (c : Option (List Char))
    (ev2 : BasicInfoEvent) (ev3 : InvestmentPreferenceEvent)
    (m1 m2 m3 : Except (List Char) (List Char))
    (h1 : basicInfoAttempt m1 = none)
    (h2 : investmentPreferenceAttempt m2 = none)
    (h3 : riskProfileAttempt m3 = none) :
    collect_basic_info u c m1 =
        ⟨⟨30, "Unknown".data, .single, .employed, none, none, 0⟩, c, u⟩ ∧
      collect_investment_preferences ev2 m2 =
        ⟨ev2.basic_info, ⟨100000, 10, 5, .moderate, [], [], none⟩,
          ev2.customer_id, ev2.user_input⟩ ∧
      assess_risk_profile ev3 m3 =
        ⟨ev3.basic_info, ev3.investment_preference,
          ⟨50, .moderate, ["信息不足".data],
            some "由于信息不足，建议进行进一步咨询。".data⟩,
          ev3.customer_id⟩ := by
  refine ⟨?_, ?_, ?_⟩
  · simp [collect_basic_info, h1, defaultBasicInfo]
  · simp [collect_investment_preferences, h2, defaultInvestmentPreference]
  · simp [assess_risk_profile, h3, defaultRiskProfile]

/-- Witness for C2: step 1 on a total parse failure, step 2 on an invalid
`risk_tolerance` enum string, step 3 on a raising model call. -/
theorem steps_default_substitution_witness :
    basicInfoAttempt (.ok ("not json at all".data)) = none ∧
      investmentPreferenceAttempt
        (.ok (fenceWrap (encodeFlatObj [("risk_tolerance".data, .pstr "wild".data)]))) = none ∧
      riskProfileAttempt (.error "boom".data) = none ∧
      (collect_basic_info "hi".data none (.ok ("not json at all".data)) =
          ⟨⟨30, "Unknown".data, .single, .employed, none, none, 0⟩, none, "hi".data⟩ ∧
        collect_investment_preferences ⟨defaultBasicInfo, none, "hi".data⟩
            (.ok (fenceWrap (encodeFlatObj [("risk_tolerance".data, .pstr "wild".data)]))) =
          ⟨defaultBasicInfo, ⟨100000, 10, 5, .moderate, [], [], none⟩, none, "hi".data⟩ ∧
        assess_risk_profile ⟨defaultBasicInfo, defaultInvestmentPreference, none, "hi".data⟩
            (.error "boom".data) =
          ⟨defaultBasicInfo, defaultInvestmentPreference,
            ⟨50, .moderate, ["信息不足".data],
              some "由于信息不足，建议进行进一步咨询。".data⟩,
            none⟩) :=
  ⟨rfl, rfl, rfl,
    steps_default_substitution "hi".data none
      ⟨defaultBasicInfo, none, "hi".data⟩
      ⟨defaultBasicInfo, defaultInvestmentPreference, none, "hi".data⟩
      _ _ _ rfl rfl rfl⟩

/-- C7 counterexample.  A KYC stream that ends with only an error-status
terminal result (no chunks, no recommendation text) appends no assistant
turn at all: memory holds only the user message, against the claim's
"exactly one assistant turn". -/
theorem kyc_stream_no_assistant_turn_counterexample :
    (stream_chat_kyc [] "hi".data
        [.stopEvent (generate_customer_profile
          ⟨defaultBasicInfo, defaultInvestmentPreference, defaultRiskProfile, none⟩
          (.error "boom".data))]).1 =
      [⟨MessageRole.user, "hi".data⟩] := rfl

/-- C7 (corrected).  The wrapper appends the raw user message before the
workflow runs, the engine-side model writes nothing else, and after the
stream completes exactly one assistant turn is appended whose content is
the concatenation of the yielded chunks (the recommendation text serving as
the sole chunk when none arrived) — except that when that content is empty
no assistant turn is appended at all. -/
theorem stream_chat_kyc_memory_shape (memory : List ChatMessage)
    (message : List Char) (events : List KycStreamEvent) :
    (stream_chat_kyc memory message events).1 =
      memory ++ ⟨MessageRole.user, message⟩ ::
        (if ((stream_chat_kyc memory message events).2).flatten = [] then []
         else [⟨MessageRole.assistant,
                ((stream_chat_kyc memory message events).2).flatten⟩]) := by
  unfold stream_chat_kyc streamKycWorkflowAsync
  set st := events.foldl consumeKycEvent ([], []) with hst
  by_cases hp : st.1.isEmpty
  · by_cases hf : st.2.isEmpty
    · simp_all [List.isEmpty_iff]
    · simp_all [List.isEmpty_iff]
  · simp_all [List.isEmpty_iff]
    by_cases hall : ∀ l ∈ st.1, l = []
    · rw [if_pos hall, if_pos hall]
    · rw [if_neg hall, if_neg hall]

/-! ## Digit lemmas for the round-trip proof -/

theorem digitChar_isDigit (d : Nat) (h : d < 10) : (digitChar d).isDigit = true := by
  interval_cases d <;> rfl

theorem digitChar_val (d : Nat) (h : d < 10) : (digitChar d).toNat - 48 = d := by
  interval_cases d <;> rfl

theorem digitChar_ne_zero (d : Nat) (h0 : 0 < d) (h : d < 10) : digitChar d ≠ '0' := by
  interval_cases d <;> decide

theorem natDigitsAux_ne_nil (fuel n : Nat) (h : n < fuel) : natDigitsAux fuel n ≠ [] := by
  cases fuel with
  | zero => omega
  | succ f => by_cases h10 : n < 10 <;> simp [natDigitsAux, h10]

theorem natDigitsAux_digits (fuel : Nat) :
    ∀ n c, n < fuel → c ∈ natDigitsAux fuel n → c.isDigit = true := by
  induction fuel with
  | zero => intro n c h; omega
  | succ f ih =>
    intro n c h hc
    by_cases h10 : n < 10
    · simp [natDigitsAux, h10] at hc
      subst hc
      exact digitChar_isDigit n h10
    · simp [natDigitsAux, h10] at hc
      rcases hc with hc | hc
      · exact ih (n / 10) c (by omega) hc
      · subst hc
        exact digitChar_isDigit _ (Nat.mod_lt _ (by omega))

theorem natDigitsAux_head_ne_zero (fuel : Nat) :
    ∀ n, 0 < n → n < fuel → (natDigitsAux fuel n).head? ≠ some '0' := by
  induction fuel with
  | zero => intro n h0 h; omega
  | succ f ih =>
    intro n h0 h
    by_cases h10 : n < 10
    · simp only [natDigitsAux, if_pos h10, List.head?_cons]
      intro hcontra
      exact digitChar_ne_zero n h0 h10 (by injection hcontra)
    · have hne := natDigitsAux_ne_nil f (n / 10) (by omega)
      obtain ⟨c, cs, hcons⟩ := List.exists_cons_of_ne_nil hne
      have hh := ih (n / 10) (by omega) (by omega)
      rw [hcons] at hh
      simp only [natDigitsAux, if_neg h10, hcons, List.cons_append, List.head?_cons]
      simpa using hh

theorem digitsToNat_append (xs : List Char) (c : Char) :
    digitsToNat (xs ++ [c]) = 10 * digitsToNat xs + (c.toNat - 48) := by
  simp [digitsToNat, List.foldl_append]

theorem digitsToNat_natDigitsAux (fuel : Nat) :
    ∀ n, n < fuel → digitsToNat (natDigitsAux fuel n) = n := by
  induction fuel with
  | zero => intro n h; omega
  | succ f ih =>
    intro n h
    by_cases h10 : n < 10
    · have hv := digitChar_val n h10
      simp only [natDigitsAux, if_pos h10, digitsToNat, List.foldl_cons, List.foldl_nil]
      omega
    · rw [show natDigitsAux (f + 1) n = natDigitsAux f (n / 10) ++ [digitChar (n % 10)] by
        simp [natDigitsAux, h10]]
      rw [digitsToNat_append, ih (n / 10) (by omega),
        digitChar_val _ (Nat.mod_lt _ (by omega))]
      omega

theorem natDigits_ne_nil (n : Nat) : natDigits n ≠ [] :=
  natDigitsAux_ne_nil _ _ (by omega)

theorem natDigits_digits (n : Nat) (c : Char) (hc : c ∈ natDigits n) :
    c.isDigit = true :=
  natDigitsAux_digits _ _ _ (by omega) hc

theorem digitsToNat_natDigits (n : Nat) : digitsToNat (natDigits n) = n :=
  digitsToNat_natDigitsAux _ _ (by omega)

theorem natDigits_head_ne_zero (n : Nat) (h0 : 0 < n) :
    (natDigits n).head? ≠ some '0' :=
  natDigitsAux_head_ne_zero _ _ h0 (by omega)

theorem natDigits_small (n : Nat) (h : n < 10) : natDigits n = [digitChar n] := by
  simp [natDigits, natDigitsAux, h]

theorem isDigit_facts (c : Char) (h : c.isDigit = true) :
    c ≠ '-' ∧ c ≠ 'n' ∧ c ≠ 't' ∧ c ≠ 'f' ∧ c ≠ '"' ∧ c ≠ '[' ∧ c ≠ '{' ∧
      c ≠ '}' ∧ c ≠ '`' ∧ isJsonWs c = false ∧ pyIsSpace c = false := by
  refine ⟨?_, ?_, ?_, ?_, ?_, ?_, ?_, ?_, ?_, ?_, ?_⟩ <;>
    first
      | (rintro rfl; exact absurd h (by decide))
      | (simp only [isJsonWs, pyIsSpace, Bool.or_eq_false_iff, decide_eq_false_iff_not]
         repeat' apply And.intro
         all_goals (rintro rfl; exact absurd h (by decide)))

theorem takeWhile_digits_append (xs rest : List Char)
    (hxs : ∀ c ∈ xs, c.isDigit = true)
    (hrest : (rest.headD ' ').isDigit = false) :
    (xs ++ rest).takeWhile Char.isDigit = xs ∧
      (xs ++ rest).dropWhile Char.isDigit = rest := by
  induction xs with
  | nil =>
    cases rest with
    | nil => simp
    | cons r rs =>
      simp only [List.headD_cons] at hrest
      simp [List.takeWhile_cons, List.dropWhile_cons, hrest]
  | cons x xs ih =>
    have hx : x.isDigit = true := hxs x (by simp)
    obtain ⟨h1, h2⟩ := ih (fun c hc => hxs c (by simp [hc]))
    simp [List.takeWhile_cons, List.dropWhile_cons, hx, h1, h2]

theorem parseNatNum_natDigits (n : Nat) (rest : List Char)
    (hrest : (rest.headD ' ').isDigit = false) :
    parseNatNum (natDigits n ++ rest) = some (n, rest) := by
  obtain ⟨htake, hdrop⟩ :=
    takeWhile_digits_append (natDigits n) rest (fun c hc => natDigits_digits n c hc) hrest
  have hcond :
      (decide ((natDigits n).length > 1) && decide ((natDigits n).headD ' ' = '0')) = false := by
    by_cases h10 : n < 10
    · simp [natDigits_small n h10]
    · have hz := natDigits_head_ne_zero n (by omega)
      obtain ⟨c, cs, hc⟩ := List.exists_cons_of_ne_nil (natDigits_ne_nil n)
      rw [hc] at hz ⊢
      simp only [List.head?_cons, ne_eq, Option.some.injEq] at hz
      simp [hz]
  simp only [parseNatNum, htake, hdrop]
  rw [if_neg (natDigits_ne_nil n)]
  rw [if_neg (by rw [hcond]; exact Bool.false_ne_true)]
  rw [digitsToNat_natDigits]

theorem parseNum_encodeInt (n : Int) (rest : List Char)
    (hrest : (rest.headD ' ').isDigit = false) :
    parseNum (encodeInt n ++ rest) = some (.num n, rest) := by
  by_cases hn : n < 0
  · have henc : encodeInt n = '-' :: natDigits n.natAbs := by simp [encodeInt, hn]
    rw [henc, List.cons_append, parseNum,
      if_pos (show ('-' :: (natDigits n.natAbs ++ rest)).headD ' ' = '-' from rfl),
      List.tail_cons, parseNatNum_natDigits _ _ hrest]
    simp [abs_of_neg hn]
  · have henc : encodeInt n = natDigits n.natAbs := by simp [encodeInt, hn]
    obtain ⟨c, cs, hc⟩ := List.exists_cons_of_ne_nil (natDigits_ne_nil n.natAbs)
    have hcd : c.isDigit = true := natDigits_digits _ c (by rw [hc]; simp)
    have hcm := (isDigit_facts c hcd).1
    have hhead : ((natDigits n.natAbs ++ rest).headD ' ') = c := by rw [hc]; simp
    rw [henc, parseNum, if_neg (by rw [hhead]; exact hcm),
      parseNatNum_natDigits _ _ hrest]
    simp [abs_of_nonneg (show (0 : Int) ≤ n by omega)]

theorem jsonSafeChar_spec (c : Char) (h : jsonSafeChar c = true) :
    (32 ≤ c.toNat ∨ c = '\n' ∨ c = '\t' ∨ c = '\r') ∧
      c ≠ '`' ∧ c ≠ '{' ∧ c ≠ '}' := by
  simp only [jsonSafeChar, Bool.and_eq_true, Bool.or_eq_true,
    decide_eq_true_eq] at h
  tauto

theorem jsonSafeStr_cons (c : Char) (cs : List Char)
    (h : jsonSafeStr (c :: cs) = true) :
    jsonSafeChar c = true ∧ jsonSafeStr cs = true := by
  simpa [jsonSafeStr] using h

theorem parseStringBody_escape (s : List Char) (rest : List Char)
    (hsafe : jsonSafeStr s = true) :
    parseStringBody (escapeStr s ++ '"' :: rest) = some (s, rest) := by
  induction s with
  | nil =>
    show parseStringBody ('"' :: rest) = some ([], rest)
    rw [parseStringBody.eq_def]
    simp
  | cons c cs ih =>
    obtain ⟨hc, hcs⟩ := jsonSafeStr_cons c cs hsafe
    have ih' := ih hcs
    have hsplit : escapeStr (c :: cs) = escapeChar c ++ escapeStr cs := by
      simp [escapeStr]
    rw [hsplit]
    by_cases h1 : c = '"'
    · subst h1
      show parseStringBody ('\\' :: '"' :: (escapeStr cs ++ '"' :: rest)) =
        some ('"' :: cs, rest)
      rw [parseStringBody.eq_def]
      simp [escCharJson, ih']
    by_cases h2 : c = '\\'
    · subst h2
      show parseStringBody ('\\' :: '\\' :: (escapeStr cs ++ '"' :: rest)) =
        some ('\\' :: cs, rest)
      rw [parseStringBody.eq_def]
      simp [escCharJson, ih']
    by_cases h3 : c = '\n'
    · subst h3
      show parseStringBody ('\\' :: 'n' :: (escapeStr cs ++ '"' :: rest)) =
        some ('\n' :: cs, rest)
      rw [parseStringBody.eq_def]
      simp [escCharJson, ih']
    by_cases h4 : c = '\t'
    · subst h4
      show parseStringBody ('\\' :: 't' :: (escapeStr cs ++ '"' :: rest)) =
        some ('\t' :: cs, rest)
      rw [parseStringBody.eq_def]
      simp [escCharJson, ih']
    by_cases h5 : c = '\r'
    · subst h5
      show parseStringBody ('\\' :: 'r' :: (escapeStr cs ++ '"' :: rest)) =
        some ('\r' :: cs, rest)
      rw [parseStringBody.eq_def]
      simp [escCharJson, ih']
    have h32 : ¬ c.toNat < 32 := by
      rcases (jsonSafeChar_spec c hc).1 with hh | hh | hh | hh
      · omega
      all_goals (exact absurd hh (by assumption))
    have hone : escapeChar c = [c] := by simp [escapeChar, h1, h2, h3, h4, h5]
    rw [hone, List.singleton_append, List.cons_append, parseStringBody.eq_def]
    simp [h1, h2, h32, ih']

theorem skipWs_cons_not (c : Char) (l : List Char) (h : isJsonWs c = false) :
    skipWs (c :: l) = c :: l := by
  simp [skipWs, List.dropWhile_cons, h]

theorem isPre_head_ne (a b : Char) (as bs : List Char) (h : a ≠ b) :
    isPre (a :: as) (b :: bs) = false := by
  simp [isPre, h]

theorem parseVal_cons_other (fuel : Nat) (c : Char) (l : List Char)
    (hws : isJsonWs c = false) (hn : c ≠ 'n') (ht : c ≠ 't') (hf : c ≠ 'f')
    (hq : c ≠ '"') (hlb : c ≠ '[') (hcb : c ≠ '{') :
    parseVal (fuel + 1) (c :: l) = parseNum (c :: l) := by
  simp only [parseVal]
  rw [skipWs_cons_not c l hws]
  rw [isPre_head_ne _ _ _ _ (fun he => hn he.symm),
    isPre_head_ne _ _ _ _ (fun he => ht he.symm),
    isPre_head_ne _ _ _ _ (fun he => hf he.symm)]
  simp [hq, hlb, hcb]


theorem parseVal_encodePrim (p : JsonPrim) (rest : List Char) (fuel : Nat)
    (hp : primSafe p = true)
    (hrest : (rest.headD ' ').isDigit = false) :
    parseVal (fuel + 1) (encodePrim p ++ rest) = some (p.toVal, rest) := by
  cases p with
  | pnull =>
    show parseVal (fuel + 1) (['n', 'u', 'l', 'l'] ++ rest) = some (.null, rest)
    simp [parseVal, skipWs, List.dropWhile_cons, isPre, isJsonWs, JsonPrim.toVal]
  | pbool b =>
    cases b with
    | true =>
      show parseVal (fuel + 1) (['t', 'r', 'u', 'e'] ++ rest) = some (.bool true, rest)
      simp [parseVal, skipWs, List.dropWhile_cons, isPre, isJsonWs, JsonPrim.toVal]
    | false =>
      show parseVal (fuel + 1) (['f', 'a', 'l', 's', 'e'] ++ rest) = some (.bool false, rest)
      simp [parseVal, skipWs, List.dropWhile_cons, isPre, isJsonWs, JsonPrim.toVal]
  | pint n =>
    obtain ⟨c, cs, hc⟩ : ∃ c cs, encodeInt n = c :: cs := by
      by_cases hn : n < 0
      · exact ⟨'-', natDigits n.natAbs, by simp [encodeInt, hn]⟩
      · obtain ⟨c, cs, h⟩ := List.exists_cons_of_ne_nil (natDigits_ne_nil n.natAbs)
        exact ⟨c, cs, by simp [encodeInt, hn, h]⟩
    have hfacts : c ≠ 'n' ∧ c ≠ 't' ∧ c ≠ 'f' ∧ c ≠ '"' ∧ c ≠ '[' ∧ c ≠ '{' ∧
        isJsonWs c = false := by
      by_cases hn : n < 0
      · have : c = '-' := by
          have := hc
          simp [encodeInt, hn] at this
          exact this.1.symm
        subst this
        refine ⟨by decide, by decide, by decide, by decide, by decide, by decide, by decide⟩
      · have hmem : c ∈ natDigits n.natAbs := by
          have he : encodeInt n = natDigits n.natAbs := by simp [encodeInt, hn]
          rw [he] at hc
          rw [hc]
          simp
        have hd := natDigits_digits _ c hmem
        obtain ⟨_, h2, h3, h4, h5, h6, h7, _, _, h10, _⟩ := isDigit_facts c hd
        exact ⟨h2, h3, h4, h5, h6, h7, h10⟩
    obtain ⟨f1, f2, f3, f4, f5, f6, f7⟩ := hfacts
    show parseVal (fuel + 1) (encodeInt n ++ rest) = some (.num n, rest)
    rw [hc, List.cons_append, parseVal_cons_other fuel c (cs ++ rest) f7 f1 f2 f3 f4 f5 f6,
      ← List.cons_append, ← hc, parseNum_encodeInt n rest hrest]
  | pstr s =>
    have hsafe : jsonSafeStr s = true := hp
    show parseVal (fuel + 1) (('"' :: (escapeStr s ++ ['"'])) ++ rest) =
      some (.str s, rest)
    rw [List.cons_append, List.append_assoc]
    simp only [List.singleton_append]
    simp only [parseVal]
    rw [skipWs_cons_not _ _ (by decide)]
    rw [isPre_head_ne _ _ _ _ (by decide), isPre_head_ne _ _ _ _ (by decide),
      isPre_head_ne _ _ _ _ (by decide)]
    simp [parseStringBody_escape s rest hsafe, JsonPrim.toVal]

theorem parseVal_cons_space (fuel : Nat) (l : List Char) :
    parseVal (fuel + 1) (' ' :: l) = parseVal (fuel + 1) l := by
  have h : skipWs (' ' :: l) = skipWs l := by
    simp [skipWs, List.dropWhile_cons, isJsonWs]
  simp only [parseVal, h]

theorem parseMembers_cons_space (fuel : Nat) (l : List Char)
    (acc : List (List Char × JsonVal)) :
    parseMembers (fuel + 1) (' ' :: l) acc = parseMembers (fuel + 1) l acc := by
  have h : skipWs (' ' :: l) = skipWs l := by
    simp [skipWs, List.dropWhile_cons, isJsonWs]
  simp only [parseMembers, h]

theorem parseMembers_last (g : Nat) (k : List Char) (v : JsonPrim)
    (rest : List Char) (acc : List (List Char × JsonVal))
    (hk : jsonSafeStr k = true) (hv : primSafe v = true) :
    parseMembers (g + 2) (encodeMember (k, v) ++ '}' :: rest) acc =
      some (.obj (acc ++ [(k, v.toVal)]), rest) := by
  have hshape : encodeMember (k, v) ++ '}' :: rest =
      '"' :: (escapeStr k ++ '"' :: (':' :: ' ' :: (encodePrim v ++ '}' :: rest))) := by
    simp [encodeMember, encodeStr]
  rw [hshape, parseMembers]
  rw [skipWs_cons_not _ _ (by decide)]
  simp only []
  rw [parseStringBody_escape k _ hk]
  simp only []
  rw [skipWs_cons_not _ _ (by decide)]
  simp only []
  rw [parseVal_cons_space g, parseVal_encodePrim v ('}' :: rest) g hv rfl]
  simp only []
  rw [skipWs_cons_not _ _ (by decide)]
  simp only []

theorem parseMembers_comma (g : Nat) (k : List Char) (v : JsonPrim)
    (tail : List Char) (acc : List (List Char × JsonVal))
    (hk : jsonSafeStr k = true) (hv : primSafe v = true) :
    parseMembers (g + 2) (encodeMember (k, v) ++ ',' :: ' ' :: tail) acc =
      parseMembers (g + 1) (' ' :: tail) (acc ++ [(k, v.toVal)]) := by
  have hshape : encodeMember (k, v) ++ ',' :: ' ' :: tail =
      '"' :: (escapeStr k ++ '"' :: (':' :: ' ' :: (encodePrim v ++ ',' :: ' ' :: tail))) := by
    simp [encodeMember, encodeStr]
  rw [hshape, parseMembers]
  rw [skipWs_cons_not _ _ (by decide)]
  simp only []
  rw [parseStringBody_escape k _ hk]
  simp only []
  rw [skipWs_cons_not _ _ (by decide)]
  simp only []
  rw [parseVal_cons_space g, parseVal_encodePrim v (',' :: ' ' :: tail) g hv rfl]
  simp only []
  rw [skipWs_cons_not _ _ (by decide)]
  simp only []

theorem safeDict_cons (m : List Char × JsonPrim) (ms : List (List Char × JsonPrim))
    (h : safeDict (m :: ms) = true) :
    jsonSafeStr m.1 = true ∧ primSafe m.2 = true ∧ safeDict ms = true := by
  have hb : (match m.2 with
      | JsonPrim.pstr s => jsonSafeStr s
      | _ => true) = primSafe m.2 := by
    cases m.2 <;> rfl
  simp only [safeDict, List.all_cons, Bool.and_eq_true] at h
  obtain ⟨⟨h1, h2⟩, h3⟩ := h
  rw [hb] at h2
  exact ⟨h1, h2, h3⟩

theorem parseMembers_encodeMembers (ms : List (List Char × JsonPrim)) :
    ∀ (acc : List (List Char × JsonVal)) (rest : List Char) (fuel : Nat),
      ms ≠ [] → ms.length ≤ fuel → safeDict ms = true →
      parseMembers (fuel + 1) (encodeMembers ms ++ '}' :: rest) acc =
        some (.obj (acc ++ ms.map fun m => (m.1, m.2.toVal)), rest) := by
  induction ms with
  | nil => intro acc rest fuel hne; exact absurd rfl hne
  | cons m ms' ih =>
    intro acc rest fuel hne hlen hsafe
    obtain ⟨hk, hv, hsafe'⟩ := safeDict_cons m ms' hsafe
    obtain ⟨k, v⟩ := m
    cases ms' with
    | nil =>
      cases fuel with
      | zero => simp at hlen
      | succ g =>
        have hlast := parseMembers_last g k v rest acc hk hv
        simpa [encodeMembers] using hlast
    | cons m2 ms'' =>
      cases fuel with
      | zero => simp at hlen
      | succ g =>
        have hshape : encodeMembers ((k, v) :: m2 :: ms'') ++ '}' :: rest =
            encodeMember (k, v) ++ ',' :: ' ' ::
              (encodeMembers (m2 :: ms'') ++ '}' :: rest) := by
          simp [encodeMembers]
        rw [hshape, show g + 1 + 1 = g + 2 from rfl,
          parseMembers_comma g k v _ acc hk hv]
        cases g with
        | zero => simp [List.length_cons] at hlen
        | succ g' =>
          rw [parseMembers_cons_space (g' + 1)]
          rw [ih (acc ++ [(k, v.toVal)]) rest (g' + 1) (by simp)
            (by simp [List.length_cons] at hlen ⊢; omega) hsafe']
          simp

theorem parseVal_cons_brace (fuel : Nat) (l : List Char) :
    parseVal (fuel + 1) ('{' :: l) =
      match skipWs l with
      | '}' :: r2 => some (.obj [], r2)
      | _ => parseMembers fuel l [] := by
  simp only [parseVal]
  rw [skipWs_cons_not _ _ (by decide)]
  rw [isPre_head_ne _ _ _ _ (by decide), isPre_head_ne _ _ _ _ (by decide),
    isPre_head_ne _ _ _ _ (by decide)]
  simp

theorem parseVal_encodeFlatObj (ms : List (List Char × JsonPrim))
    (rest : List Char) (fuel : Nat)
    (hlen : ms.length + 1 ≤ fuel) (hsafe : safeDict ms = true) :
    parseVal (fuel + 1) (encodeFlatObj ms ++ rest) =
      some (flatObjVal ms, rest) := by
  have hshape : encodeFlatObj ms ++ rest = '{' :: (encodeMembers ms ++ '}' :: rest) := by
    simp [encodeFlatObj]
  rw [hshape, parseVal_cons_brace fuel]
  cases ms with
  | nil =>
    show (match skipWs ('}' :: rest) with
      | '}' :: r2 => some (JsonVal.obj [], r2)
      | _ => parseMembers fuel ('}' :: rest) []) = some (flatObjVal [], rest)
    rw [skipWs_cons_not _ _ (by decide)]
    rfl
  | cons m ms' =>
    obtain ⟨k, v⟩ := m
    obtain ⟨t, ht⟩ : ∃ t, encodeMembers ((k, v) :: ms') ++ '}' :: rest = '"' :: t := by
      cases ms' with
      | nil =>
        exact ⟨escapeStr k ++ '"' :: (':' :: ' ' :: (encodePrim v ++ '}' :: rest)),
          by simp [encodeMembers, encodeMember, encodeStr]⟩
      | cons a b =>
        exact ⟨escapeStr k ++ '"' :: (':' :: ' ' ::
            (encodePrim v ++ ',' :: ' ' :: (encodeMembers (a :: b) ++ '}' :: rest))),
          by simp [encodeMembers, encodeMember, encodeStr]⟩
    have hred : (match skipWs (encodeMembers ((k, v) :: ms') ++ '}' :: rest) with
        | '}' :: r2 => some (JsonVal.obj [], r2)
        | _ => parseMembers fuel (encodeMembers ((k, v) :: ms') ++ '}' :: rest) []) =
        parseMembers fuel (encodeMembers ((k, v) :: ms') ++ '}' :: rest) [] := by
      rw [ht, skipWs_cons_not _ _ (by decide)]
      rfl
    rw [hred]
    cases fuel with
    | zero => simp [List.length_cons] at hlen
    | succ g =>
      rw [parseMembers_encodeMembers ((k, v) :: ms') [] rest g (by simp)
        (by simp [List.length_cons] at hlen ⊢; omega) hsafe]
      simp [flatObjVal]

theorem encodeMembers_length (ms : List (List Char × JsonPrim)) :
    ms.length ≤ (encodeMembers ms).length := by
  induction ms with
  | nil => simp [encodeMembers]
  | cons m ms' ih =>
    cases ms' with
    | nil =>
      simp [encodeMembers, encodeMember, encodeStr]
    | cons m2 ms'' =>
      rw [show encodeMembers (m :: m2 :: ms'') =
        encodeMember m ++ ',' :: ' ' :: encodeMembers (m2 :: ms'') from rfl]
      simp only [List.length_append, List.length_cons] at *
      omega

theorem jsonLoads_encodeFlatObj (ms : List (List Char × JsonPrim))
    (hsafe : safeDict ms = true) :
    jsonLoads (encodeFlatObj ms) = some (flatObjVal ms) := by
  have hb : ms.length + 1 ≤ (encodeFlatObj ms).length := by
    have h1 := encodeMembers_length ms
    simp only [encodeFlatObj, List.length_cons, List.length_append]
    omega
  have hmain := parseVal_encodeFlatObj ms [] (encodeFlatObj ms).length hb hsafe
  rw [List.append_nil] at hmain
  unfold jsonLoads
  rw [hmain]
  simp [skipWs]

theorem mem_escapeChar (d c : Char) (h : d ∈ escapeChar c) :
    d = c ∨ d = '\\' ∨ d = '"' ∨ d = 'n' ∨ d = 't' ∨ d = 'r' := by
  unfold escapeChar at h
  split_ifs at h <;> simp at h <;> tauto

theorem escapeStr_chars (k : List Char) (hk : jsonSafeStr k = true) :
    ∀ c ∈ escapeStr k, c ≠ '`' ∧ c ≠ '{' ∧ c ≠ '}' := by
  intro c hc
  simp only [escapeStr, List.mem_flatten, List.mem_map] at hc
  obtain ⟨l, ⟨x, hx, rfl⟩, hcl⟩ := hc
  rcases mem_escapeChar c x hcl with rfl | h | h | h | h | h
  · have hxs : jsonSafeChar c = true := by
      simp only [jsonSafeStr, List.all_eq_true] at hk
      exact hk c hx
    exact (jsonSafeChar_spec c hxs).2
  all_goals (subst h; exact ⟨by decide, by decide, by decide⟩)

theorem encodeStr_chars (k : List Char) (hk : jsonSafeStr k = true) :
    ∀ c ∈ encodeStr k, c ≠ '`' ∧ c ≠ '{' ∧ c ≠ '}' := by
  intro c hc
  simp only [encodeStr, List.mem_cons, List.mem_append] at hc
  rcases hc with rfl | hc | hc
  · exact ⟨by decide, by decide, by decide⟩
  · exact escapeStr_chars k hk c hc
  · rcases hc with rfl | hc
    · exact ⟨by decide, by decide, by decide⟩
    · simp at hc

theorem encodeInt_chars (n : Int) :
    ∀ c ∈ encodeInt n, c ≠ '`' ∧ c ≠ '{' ∧ c ≠ '}' := by
  intro c hc
  by_cases hn : n < 0
  · rw [show encodeInt n = '-' :: natDigits n.natAbs by simp [encodeInt, hn]] at hc
    rcases List.mem_cons.mp hc with rfl | hc
    · exact ⟨by decide, by decide, by decide⟩
    · obtain ⟨_, _, _, _, _, _, _, h8, h9, _, _⟩ :=
        isDigit_facts c (natDigits_digits _ c hc)
      exact ⟨h9, by assumption, h8⟩
  · rw [show encodeInt n = natDigits n.natAbs by simp [encodeInt, hn]] at hc
    obtain ⟨_, _, _, _, _, _, h7, h8, h9, _, _⟩ :=
      isDigit_facts c (natDigits_digits _ c hc)
    exact ⟨h9, h7, h8⟩

theorem encodePrim_chars (v : JsonPrim) (hv : primSafe v = true) :
    ∀ c ∈ encodePrim v, c ≠ '`' ∧ c ≠ '{' ∧ c ≠ '}' := by
  intro c hc
  cases v with
  | pnull =>
    rw [show encodePrim .pnull = ['n', 'u', 'l', 'l'] from rfl] at hc
    fin_cases hc <;> exact ⟨by decide, by decide, by decide⟩
  | pbool b =>
    cases b with
    | true =>
      rw [show encodePrim (.pbool true) = ['t', 'r', 'u', 'e'] from rfl] at hc
      fin_cases hc <;> exact ⟨by decide, by decide, by decide⟩
    | false =>
      rw [show encodePrim (.pbool false) = ['f', 'a', 'l', 's', 'e'] from rfl] at hc
      fin_cases hc <;> exact ⟨by decide, by decide, by decide⟩
  | pint n => exact encodeInt_chars n c hc
  | pstr s => exact encodeStr_chars s hv c hc

theorem encodeMember_chars (m : List Char × JsonPrim)
    (hk : jsonSafeStr m.1 = true) (hv : primSafe m.2 = true) :
    ∀ c ∈ encodeMember m, c ≠ '`' ∧ c ≠ '{' ∧ c ≠ '}' := by
  intro c hc
  simp only [encodeMember, List.mem_append, List.mem_cons] at hc
  rcases hc with hc | rfl | rfl | hc
  · exact encodeStr_chars m.1 hk c hc
  · exact ⟨by decide, by decide, by decide⟩
  · exact ⟨by decide, by decide, by decide⟩
  · exact encodePrim_chars m.2 hv c hc

theorem encodeMembers_chars (ms : List (List Char × JsonPrim))
    (hsafe : safeDict ms = true) :
    ∀ c ∈ encodeMembers ms, c ≠ '`' ∧ c ≠ '{' ∧ c ≠ '}' := by
  induction ms with
  | nil => intro c hc; simp [encodeMembers] at hc
  | cons m ms' ih =>
    obtain ⟨hk, hv, hsafe'⟩ := safeDict_cons m ms' hsafe
    intro c hc
    cases ms' with
    | nil =>
      rw [show encodeMembers [m] = encodeMember m from rfl] at hc
      exact encodeMember_chars m hk hv c hc
    | cons m2 ms'' =>
      rw [show encodeMembers (m :: m2 :: ms'') =
        encodeMember m ++ ',' :: ' ' :: encodeMembers (m2 :: ms'') from rfl] at hc
      simp only [List.mem_append, List.mem_cons] at hc
      rcases hc with hc | rfl | rfl | hc
      · exact encodeMember_chars m hk hv c hc
      · exact ⟨by decide, by decide, by decide⟩
      · exact ⟨by decide, by decide, by decide⟩
      · exact ih hsafe' c (by simpa using hc)

theorem encodeFlatObj_no_backtick (ms : List (List Char × JsonPrim))
    (hsafe : safeDict ms = true) : '`' ∉ encodeFlatObj ms := by
  intro hc
  simp only [encodeFlatObj, List.mem_cons, List.mem_append, List.mem_singleton] at hc
  rcases hc with hc | hc | hc
  · exact absurd hc (by decide)
  · exact (encodeMembers_chars ms hsafe '`' hc).1 rfl
  · exact absurd hc (by decide)

theorem dropWhile_self_of_head (l : List Char)
    (hh : ∀ c, l.head? = some c → pyIsSpace c = false) :
    l.dropWhile pyIsSpace = l := by
  cases l with
  | nil => rfl
  | cons a l' => simp [List.dropWhile_cons, hh a rfl]

theorem rdropWhile_self_of_last (l : List Char)
    (hl : ∀ c, l.getLast? = some c → pyIsSpace c = false) :
    List.rdropWhile pyIsSpace l = l := by
  rw [List.rdropWhile_eq_self_iff]
  intro hne
  have := hl (l.getLast hne) (List.getLast?_eq_getLast l hne)
  simp [this]

theorem pyStrip_eq_self (l : List Char)
    (hh : ∀ c, l.head? = some c → pyIsSpace c = false)
    (hl : ∀ c, l.getLast? = some c → pyIsSpace c = false) :
    pyStrip l = l := by
  rw [pyStrip_as_rdrop, dropWhile_self_of_head l hh, rdropWhile_self_of_last l hl]

theorem pyStrip_newline_wrap (l : List Char) (hne : l ≠ [])
    (hh : ∀ c, l.head? = some c → pyIsSpace c = false)
    (hl : ∀ c, l.getLast? = some c → pyIsSpace c = false) :
    pyStrip ('\n' :: (l ++ ['\n'])) = l := by
  rw [pyStrip_as_rdrop]
  have h1 : List.dropWhile pyIsSpace ('\n' :: (l ++ ['\n'])) = l ++ ['\n'] := by
    rw [List.dropWhile_cons, if_pos (by decide), List.dropWhile_append,
      dropWhile_self_of_head l hh]
    simp [List.isEmpty_iff, hne]
  rw [h1, List.rdropWhile_concat_pos pyIsSpace l '\n' (by decide),
    rdropWhile_self_of_last l hl]

theorem encodeFlatObj_head (ms : List (List Char × JsonPrim)) :
    ∀ c, (encodeFlatObj ms).head? = some c → pyIsSpace c = false := by
  intro c hc
  rw [show (encodeFlatObj ms).head? = some '{' from rfl] at hc
  injection hc with h
  subst h
  decide

theorem encodeFlatObj_last (ms : List (List Char × JsonPrim)) :
    ∀ c, (encodeFlatObj ms).getLast? = some c → pyIsSpace c = false := by
  intro c hc
  rw [show encodeFlatObj ms = ('{' :: encodeMembers ms) ++ ['}'] from by
      simp [encodeFlatObj],
    List.getLast?_concat] at hc
  injection hc with h
  subst h
  decide

theorem pyStrip_encodeFlatObj (ms : List (List Char × JsonPrim)) :
    pyStrip (encodeFlatObj ms) = encodeFlatObj ms :=
  pyStrip_eq_self _ (encodeFlatObj_head ms) (encodeFlatObj_last ms)

theorem findSub_bq_none (xs : List Char) (h : '`' ∉ xs) :
    findSub ['`', '`', '`'] xs = none := by
  induction xs with
  | nil => rfl
  | cons c cs ih =>
    have hc : '`' ≠ c := fun he => h (by simp [he.symm])
    simp [findSub, isPre_head_ne _ _ _ _ hc, ih (fun hm => h (by simp [hm]))]

theorem findSub_bq_at (xs rest : List Char) (h : '`' ∉ xs) :
    findSub ['`', '`', '`'] (xs ++ '`' :: '`' :: '`' :: rest) = some xs.length := by
  induction xs with
  | nil => simp [findSub, isPre]
  | cons c cs ih =>
    have hc : '`' ≠ c := fun he => h (by simp [he.symm])
    simp [findSub, isPre_head_ne _ _ _ _ hc, ih (fun hm => h (by simp [hm]))]

theorem braceLoop_no_brace (xs : List Char) (rest : List Char)
    (h : ∀ c ∈ xs, c ≠ '{' ∧ c ≠ '}') :
    braceLoop (xs ++ '}' :: rest) 1 = some (xs.length + 1) := by
  induction xs with
  | nil => simp [braceLoop]
  | cons c cs ih =>
    obtain ⟨h1, h2⟩ := h c (by simp)
    simp only [List.cons_append, braceLoop, if_neg h1, if_neg h2, List.append_eq]
    rw [ih (fun d hd => h d (by simp [hd]))]
    simp

theorem fenceContent_fenceWrap (s : List Char) (hnb : '`' ∉ s) (hne : s ≠ [])
    (hh : ∀ c, s.head? = some c → pyIsSpace c = false)
    (hl : ∀ c, s.getLast? = some c → pyIsSpace c = false) :
    fenceContent (fenceWrap s) = some s := by
  have hx : '`' ∉ ('\n' :: (s ++ ['\n'])) := by
    intro hmem
    rcases List.mem_cons.mp hmem with h | h
    · exact absurd h (by decide)
    · rcases List.mem_append.mp h with h | h
      · exact hnb h
      · exact absurd (List.mem_singleton.mp h) (by decide)
  have hshape : fenceWrap s = '`' :: '`' :: '`' :: 'j' :: 's' :: 'o' :: 'n' :: '\n' ::
      (s ++ '\n' :: '`' :: '`' :: '`' :: []) := by
    rw [fenceWrap, List.append_assoc]
    rfl
  have hfs0 : findSub ['`', '`', '`']
      ('`' :: '`' :: '`' :: 'j' :: 's' :: 'o' :: 'n' :: '\n' ::
        (s ++ '\n' :: '`' :: '`' :: '`' :: [])) = some 0 := by
    simp [findSub, isPre]
  have hbody : '\n' :: (s ++ '\n' :: '`' :: '`' :: '`' :: []) =
      ('\n' :: (s ++ ['\n'])) ++ '`' :: '`' :: '`' :: [] := by simp
  have hfs1 : findSub ['`', '`', '`'] ('\n' :: (s ++ '\n' :: '`' :: '`' :: '`' :: [])) =
      some ('\n' :: (s ++ ['\n'])).length := by
    rw [hbody]
    exact findSub_bq_at _ _ hx
  rw [hshape, fenceContent, hfs0]
  simp only [List.drop_succ_cons, List.drop_zero]
  rw [show isPre ['j', 's', 'o', 'n']
      ('j' :: 's' :: 'o' :: 'n' :: '\n' :: (s ++ '\n' :: '`' :: '`' :: '`' :: [])) = true
    from by simp [isPre]]
  simp only [if_true]
  rw [hfs1]
  simp only []
  rw [hbody, List.take_left, pyStrip_newline_wrap s hne hh hl]

theorem fenceContent_encodeFlatObj (ms : List (List Char × JsonPrim))
    (hsafe : safeDict ms = true) :
    fenceContent (encodeFlatObj ms) = none := by
  rw [fenceContent, findSub_bq_none _ (encodeFlatObj_no_backtick ms hsafe)]

theorem braceSpan_encodeFlatObj (ms : List (List Char × JsonPrim))
    (hsafe : safeDict ms = true) :
    braceSpan (encodeFlatObj ms) = some (encodeFlatObj ms) := by
  have h0 : findSub ['{'] (encodeFlatObj ms) = some 0 := by
    rw [show encodeFlatObj ms = '{' :: (encodeMembers ms ++ ['}']) from rfl]
    simp [findSub, isPre]
  have hloop : braceLoop (encodeFlatObj ms) 0 = some (encodeFlatObj ms).length := by
    rw [show encodeFlatObj ms = '{' :: (encodeMembers ms ++ ['}']) from rfl]
    rw [show (encodeMembers ms ++ ['}'] : List Char) =
      encodeMembers ms ++ '}' :: [] from rfl]
    simp only [braceLoop, if_pos rfl]
    rw [show ((0 : Int) + 1) = 1 from rfl]
    rw [braceLoop_no_brace (encodeMembers ms) []
      (fun c hc => ⟨(encodeMembers_chars ms hsafe c hc).2.1,
        (encodeMembers_chars ms hsafe c hc).2.2⟩)]
    simp
  rw [braceSpan, h0]
  simp only [List.drop_zero]
  rw [hloop]
  simp only [List.take_length]
  rw [pyStrip_encodeFlatObj]

/-- C4 counterexample.  Round-trip as claimed fails for dicts whose string
values contain a closing brace (the balanced-brace scan stops inside the
string literal: `{"a": "}"}` truncates to `{"a": "}` and parsing fails) or
a fence marker (the fenced variant closes the fence inside the string
value).  Both clauses of the claim produce a parse error instead of `d`. -/
theorem extract_roundtrip_counterexample :
    extract_json_from_response (encodeFlatObj [(['a'], .pstr ['}'])]) =
        .error ("Invalid JSON format".data) ∧
      extract_json_from_response (fenceWrap (encodeFlatObj
          [(['a'], .pstr "``` x ```".data)])) =
        .error ("Invalid JSON format".data) :=
  ⟨rfl, rfl⟩

/-- C4 (corrected).  The round-trip holds for every dict of
JSON-serializable primitives whose keys and string values stay inside the
printable fragment and avoid backticks and braces: both the fenced and the
unfenced JSON encodings extract back to exactly the original dict. -/
theorem extract_roundtrip_amended (ms : List (List Char × JsonPrim))
    (hdict : (ms.map Prod.fst).Nodup) (hsafe : safeDict ms = true) :
    extract_json_from_response (fenceWrap (encodeFlatObj ms)) =
        .ok (flatObjVal ms) ∧
      extract_json_from_response (encodeFlatObj ms) = .ok (flatObjVal ms) := by
  have hne : encodeFlatObj ms ≠ [] := by simp [encodeFlatObj]
  have hnb := encodeFlatObj_no_backtick ms hsafe
  have hld := jsonLoads_encodeFlatObj ms hsafe
  have hstrip := pyStrip_encodeFlatObj ms
  constructor
  · have hf := fenceContent_fenceWrap (encodeFlatObj ms) hnb hne
      (encodeFlatObj_head ms) (encodeFlatObj_last ms)
    simp [extract_json_from_response, hf, hne, hstrip, hld]
  · have hf := fenceContent_encodeFlatObj ms hsafe
    have hb := braceSpan_encodeFlatObj ms hsafe
    simp [extract_json_from_response, hf, hb, hne, hstrip, hld]

/-- Witness for C4 at the dict `{"a": 1, "b": "x"}`. -/
theorem extract_roundtrip_amended_witness :
    (([(['a'], JsonPrim.pint 1), (['b'], JsonPrim.pstr ['x'])].map Prod.fst).Nodup ∧
        safeDict [(['a'], JsonPrim.pint 1), (['b'], JsonPrim.pstr ['x'])] = true) ∧
      (extract_json_from_response (fenceWrap (encodeFlatObj
            [(['a'], JsonPrim.pint 1), (['b'], JsonPrim.pstr ['x'])])) =
          .ok (flatObjVal [(['a'], JsonPrim.pint 1), (['b'], JsonPrim.pstr ['x'])]) ∧
        extract_json_from_response (encodeFlatObj
            [(['a'], JsonPrim.pint 1), (['b'], JsonPrim.pstr ['x'])]) =
          .ok (flatObjVal [(['a'], JsonPrim.pint 1), (['b'], JsonPrim.pstr ['x'])])) :=
  ⟨⟨by decide, rfl⟩,
    extract_roundtrip_amended [(['a'], JsonPrim.pint 1), (['b'], JsonPrim.pstr ['x'])]
      (by decide) rfl⟩
